import Mathlib

/-!
# gerb2tiff: the strip rasteriser of `src/main.cpp`

A shallow embedding of the rasterising part of `main.cpp` (the span compositor
`horizontalLine`, the popcount table, the image geometry, the polygon merge,
the strip sweep of `main`, the part of `main` after the parse loop and the
area report) together with theorems about it.

Modelling conventions.

* `int` values are mathematical integers (`Int`): signed overflow is
  undefined behaviour, and the model describes the runs without it.  Polygon
  coordinates are `int`s; where the initial values `INT_MAX`/`INT_MIN` of the
  bounding box matter this range is an explicit hypothesis.
* `unsigned` values are natural numbers (`Nat`).  The `unsigned` sum and
  products that size the bitmap and the strips (`imageWidth+7`,
  `bytesPerScanline * rowsPerStrip`, `bytesPerScanline*lines`) are taken modulo
  `2^32`, as the 32-bit `unsigned int` of the program computes them.  The row
  numbers of the strip loop and the dark-pixel count are not reduced: the
  model describes the runs in which they stay inside the range of their type.
* An `unsigned char` is a `Nat` below 256.  The bitmap is a `List Nat`; a
  pointer into it is an `Int` index.  A store through a pointer outside of the
  allocated bitmap is undefined behaviour and yields `none`.
* The `double` border `optBoarder`, in pixels, is a rational number, and the
  size expression of lines 508 and 509 is evaluated exactly.  This is the
  value of the program where its `double` operations are exact, as they are
  for a border of a whole number of pixels with an image size in the range of
  `unsigned`.
* `polygon.h` is not part of the sources.  A `Polygon` carries the fields that
  `main.cpp` reads; its span cursor `getNextLineX1X2Pairs` is a parameter (the
  table returned by the k-th call), and the two `operator<` used by
  `list::merge` and `list::sort` are modelled from the specification.
-/

namespace Gerb2Tiff

/-! ## Definitions -/

/-- The drawing polarity `Polarity_t` of `polygon.h`, as used by `main.cpp`. -/
inductive Polarity_t where
  | DARK
  | CLEAR
  | XOR
  deriving DecidableEq, Repr

/-- The table `fillSingle[64]` of `horizontalLine`, indexed by `b1 + (b2 << 3)`. -/
def fillSingle : List Nat :=
  [0x80, 0x00, 0x00, 0x00, 0x00, 0x00, 0x00, 0x00,
   0xC0, 0x40, 0x00, 0x00, 0x00, 0x00, 0x00, 0x00,
   0xE0, 0x60, 0x20, 0x00, 0x00, 0x00, 0x00, 0x00,
   0xF0, 0x70, 0x30, 0x10, 0x00, 0x00, 0x00, 0x00,
   0xF8, 0x78, 0x38, 0x18, 0x08, 0x00, 0x00, 0x00,
   0xFC, 0x7C, 0x3C, 0x1C, 0x0C, 0x04, 0x00, 0x00,
   0xFE, 0x7E, 0x3E, 0x1E, 0x0E, 0x06, 0x02, 0x00,
   0xFF, 0x7F, 0x3F, 0x1F, 0x0F, 0x07, 0x03, 0x01]

/-- The table `fillLast[8]` of `horizontalLine`. -/
def fillLast : List Nat := [0x80, 0xC0, 0xE0, 0xF0, 0xF8, 0xFC, 0xFE, 0xFF]

/-- The table `fillFirst[8]` of `horizontalLine`. -/
def fillFirst : List Nat := [0xFF, 0x7F, 0x3F, 0x1F, 0x0F, 0x07, 0x03, 0x01]

/-- The C expression `~m` for a table entry `m`, as it acts on an `unsigned char`
operand of `&=`: only the low eight bits matter, and there it is `m ^ 0xFF`. -/
def bnot8 (m : Nat) : Nat := m ^^^ 0xFF

/-- Read-modify-write `*p = f(*p)` of one byte of the bitmap `mem`.  The
pointer `p` is an index into `mem`; outside of `mem` the store is undefined. -/
def poke (mem : List Nat) (p : Int) (f : Nat → Nat) : Option (List Nat) :=
  if 0 ≤ p ∧ p < (mem.length : Int) then
    some (mem.set p.toNat (f (mem.getD p.toNat 0)))
  else none

/-- Apply `*p = f(*p)` to the `n` consecutive bytes starting at `p`, in
increasing address order: the body of `memset` and of the `while (px1 < px2)`
loop of `horizontalLine`. -/
def pokeRun (f : Nat → Nat) : Nat → Int → List Nat → Option (List Nat)
  | 0, _, mem => some mem
  | n + 1, p, mem => (poke mem p f).bind (pokeRun f n (p + 1))

/-- The call `memset(p, v, n)`. -/
def memset (mem : List Nat) (p : Int) (v : Nat) (n : Nat) : Option (List Nat) :=
  pokeRun (fun _ => v) n p mem

/-- The function `horizontalLine(x1, x2, buffer, polarity)` of `main.cpp`.
`buffer` is the index in the bitmap `mem` of the first byte of the row.
`x & 7` is `x % 8` and `x >> 3` is `x / 8` (rounding down) on `Int`. -/
def horizontalLine (x1 x2 : Int) (buffer : Int) (mem : List Nat)
    (polarity : Polarity_t) : Option (List Nat) :=
  let lo := if x1 > x2 then x2 else x1
  let hi := if x1 > x2 then x1 else x2
  let b1 := (lo % 8).toNat
  let b2 := (hi % 8).toNat
  let px1 := buffer + lo / 8
  let px2 := buffer + hi / 8
  match polarity with
  | Polarity_t.DARK =>
    if px1 = px2 then
      poke mem px1 (fun b => b ||| fillSingle.getD (b1 + b2 * 8) 0)
    else
      (poke mem px1 (fun b => b ||| fillFirst.getD b1 0)).bind fun m1 =>
      (poke m1 px2 (fun b => b ||| fillLast.getD b2 0)).bind fun m2 =>
      memset m2 (px1 + 1) 0xFF (px2 - (px1 + 1)).toNat
  | Polarity_t.CLEAR =>
    if px1 = px2 then
      poke mem px1 (fun b => b &&& bnot8 (fillSingle.getD (b1 + b2 * 8) 0))
    else
      (poke mem px1 (fun b => b &&& bnot8 (fillFirst.getD b1 0))).bind fun m1 =>
      (poke m1 px2 (fun b => b &&& bnot8 (fillLast.getD b2 0))).bind fun m2 =>
      memset m2 (px1 + 1) 0x0 (px2 - (px1 + 1)).toNat
  | Polarity_t.XOR =>
    if px1 = px2 then
      poke mem px1 (fun b => b ^^^ fillSingle.getD (b1 + b2 * 8) 0)
    else
      (poke mem px1 (fun b => b ^^^ fillFirst.getD b1 0)).bind fun m1 =>
      (poke m1 px2 (fun b => b ^^^ fillLast.getD b2 0)).bind fun m2 =>
      pokeRun (fun b => b ^^^ 0xFF) (px2 - (px1 + 1)).toNat (px1 + 1) m2

/-- Pixel `p` of a row buffer, MSB first: bit `0x80 >> (p mod 8)` of byte
`p div 8`. -/
def getPixel (buf : List Nat) (p : Nat) : Bool :=
  (buf.getD (p / 8) 0 &&& (0x80 >>> (p % 8))) != 0

/-- The pixel value a drawing mode produces from the previous value. -/
def drawn (mode : Polarity_t) (old : Bool) : Bool :=
  match mode with
  | Polarity_t.DARK => true
  | Polarity_t.CLEAR => false
  | Polarity_t.XOR => !old

/-! ### The popcount table and the area count -/

/-- The entry `nbitsTable[i]` as the initialisation loop of `main` computes it:
one increment for each of the eight bit tests. -/
def nbitsEntry (i : Nat) : Nat :=
  (if i &&& 0x01 ≠ 0 then 1 else 0) + (if i &&& 0x02 ≠ 0 then 1 else 0) +
  (if i &&& 0x04 ≠ 0 then 1 else 0) + (if i &&& 0x08 ≠ 0 then 1 else 0) +
  (if i &&& 0x10 ≠ 0 then 1 else 0) + (if i &&& 0x20 ≠ 0 then 1 else 0) +
  (if i &&& 0x40 ≠ 0 then 1 else 0) + (if i &&& 0x80 ≠ 0 then 1 else 0)

/-- The table `nbitsTable[256]` after the loop `for (i = 0; i < 256; i++)`. -/
def nbitsTable : List Nat := (List.range 256).map nbitsEntry

/-- The inner loop `for (x = 0; x < bytesPerScanline; x++) darkPixelsCount +=
nbitsTable[*pbitmaprow];` of the area count.  The loop has no braces: the
statement `pbitmaprow++` that follows it in the source is not part of its body,
so every iteration reads the same byte.  The first argument counts the
iterations that remain. -/
def areaInner (bitmap : List Nat) (pbitmaprow : Nat) : Nat → Nat → Nat
  | 0, darkPixelsCount => darkPixelsCount
  | n + 1, darkPixelsCount =>
    areaInner bitmap pbitmaprow n
      (darkPixelsCount + nbitsTable.getD (bitmap.getD pbitmaprow 0) 0)

/-- The outer loop `for (i = 0; i < lines; i++)` of the area count, started
at row `i`; the first argument counts the rows that remain.  Each row sets
`pbitmaprow = bitmap + bytesPerScanline * i`, runs the inner loop, and then
increments `pbitmaprow` once, which has no effect as the variable dies. -/
def areaRows (bitmap : List Nat) (bytesPerScanline : Nat) : Nat → Nat → Nat → Nat
  | 0, _, darkPixelsCount => darkPixelsCount
  | n + 1, i, darkPixelsCount =>
    areaRows bitmap bytesPerScanline n (i + 1)
      (areaInner bitmap (bytesPerScanline * i) bytesPerScanline darkPixelsCount)

/-- The value that the block `if (optShowArea) { ... }` adds to
`darkPixelsCount` for a strip of `lines` rows. -/
def stripArea (bitmap : List Nat) (bytesPerScanline lines : Nat) : Nat :=
  areaRows bitmap bytesPerScanline lines 0 0

/-- The number of 1-bits of a byte (bits 0 to 7). -/
def popcount8 (b : Nat) : Nat :=
  ((List.range 8).filter fun i => b.testBit i).length

/-- The number of 1-bits of a sequence of bytes. -/
def popcountBytes (bytes : List Nat) : Nat :=
  (bytes.map popcount8).sum

/-! ### Polygons, documents and the merge -/

/-- The members of `Polygon` (`polygon.h`) that `main.cpp` reads.  `number` is
the stacking key.  `sli k` is the table that the `k`-th call (counted from 0)
of the span cursor `getNextLineX1X2Pairs` returns, as the list of its pairs
`(sliTable[i], sliTable[i+1])`, `i = 0, 2, ...` (`sliCount` is even). -/
structure Polygon where
  number : Int
  pixelMinX : Int
  pixelMaxX : Int
  pixelMinY : Int
  pixelMaxY : Int
  pixelOffsetX : Int
  polarity : Polarity_t
  sli : Nat → List (Int × Int)

/-- The members of `Gerber` (`gerber.h`) that the rasterising part of `main`
reads. -/
structure Gerber where
  polygons : List Polygon
  imagePolarityDark : Bool

/-- Modelled from the spec: `Polygon::operator<` of `polygon.h`, which is not
in the sources.  The specification orders polygon lists ascending by
`pixelMinY`. -/
def polygonLt (a b : Polygon) : Bool := decide (a.pixelMinY < b.pixelMinY)

/-- The call `l1.merge(l2)` of `std::list` with comparison `lt`: while both
lists are non-empty the head of `l2` is taken when it is less than the head of
`l1`, else the head of `l1`; what remains of `l2` is appended. -/
def listMerge {α : Type} (lt : α → α → Bool) : List α → List α → List α
  | [], l2 => l2
  | x :: l1, [] => x :: l1
  | x :: l1, y :: l2 =>
    if lt y x then y :: listMerge lt (x :: l1) l2
    else x :: listMerge lt l1 (y :: l2)

/-- The loop `for (it = gerbers.begin(); ...) globalPolygons.merge((*it)->polygons)`. -/
def mergeGerbers (gerbers : List Gerber) : List Polygon :=
  gerbers.foldl (fun globalPolygons g => listMerge polygonLt globalPolygons g.polygons) []

/-! ### Image geometry -/

/-- The constant `INT_MAX` of a 32-bit `int`. -/
def INT_MAX : Int := 2147483647

/-- The constant `INT_MIN` of a 32-bit `int`. -/
def INT_MIN : Int := -2147483648

/-- The variables `minx`, `miny`, `maxx`, `maxy` of `main`. -/
structure Extent where
  minx : Int
  miny : Int
  maxx : Int
  maxy : Int
  deriving DecidableEq, Repr

/-- The body of the loop that finds the extreme coordinates. -/
def extentStep (e : Extent) (p : Polygon) : Extent :=
  { minx := if e.minx > p.pixelMinX then p.pixelMinX else e.minx
    maxx := if e.maxx < p.pixelMaxX then p.pixelMaxX else e.maxx
    miny := if e.miny > p.pixelMinY then p.pixelMinY else e.miny
    maxy := if e.maxy < p.pixelMaxY then p.pixelMaxY else e.maxy }

/-- The loop over `globalPolygons` that finds the extreme coordinates, from
the initial values `INT_MAX` and `INT_MIN`. -/
def extent (globalPolygons : List Polygon) : Extent :=
  globalPolygons.foldl extentStep
    { minx := INT_MAX, miny := INT_MAX, maxx := INT_MIN, maxy := INT_MIN }

/-- The size `unsigned(ceil((max - min) + 2*optBoarder + 1))` of one axis,
with the sum evaluated exactly. -/
def imageSize (min max : Int) (optBoarder : ℚ) : Nat :=
  Int.toNat ⌈(((max - min : Int) : ℚ) + 2 * optBoarder + 1)⌉

/-- The offset `int(floor(optBoarder))`, the initial value of `xOffset` and
`yOffset`. -/
def borderOffset (optBoarder : ℚ) : Int := ⌊optBoarder⌋

/-- The statement `if (rowsPerStrip > imageHeight || rowsPerStrip == 0)
rowsPerStrip = imageHeight;`. -/
def clampRowsPerStrip (rowsPerStrip imageHeight : Nat) : Nat :=
  if rowsPerStrip > imageHeight ∨ rowsPerStrip = 0 then imageHeight else rowsPerStrip

/-- The statement `isPolarityDark = (optInvertPolarity ^ gerbers.front()->imagePolarityDark)`. -/
def isPolarityDarkOf (optInvertPolarity imagePolarityDark : Bool) : Bool :=
  xor optInvertPolarity imagePolarityDark

/-- The values that `main` has computed when the drawing loop starts.
`xOffset` and `yOffset` are the values of lines 511 and 512, before the
statement `xOffset -= minx`; `rowsPerStrip` is the clamped value. -/
structure Image where
  minx : Int
  miny : Int
  maxx : Int
  maxy : Int
  imageWidth : Nat
  imageHeight : Nat
  xOffset : Int
  yOffset : Int
  rowsPerStrip : Nat
  isPolarityDark : Bool
  optShowArea : Bool

/-- The statement `bytesPerScanline = ((imageWidth+7) >> 3)`, an `unsigned
int` computation: the sum is taken modulo `2^32`. -/
def Image.bytesPerScanline (im : Image) : Nat := ((im.imageWidth + 7) % 4294967296) / 8

/-- The statement `bitmapBytes = bytesPerScanline * rowsPerStrip`, a product
of two `unsigned int` values: it is taken modulo `2^32`.  This is the number
of bytes that `malloc` is asked for. -/
def Image.bitmapBytes (im : Image) : Nat :=
  (im.bytesPerScanline * im.rowsPerStrip) % 4294967296

/-- The geometry part of `main` (lines 494 to 519) for a non-empty
`globalPolygons`. -/
def mkImage (globalPolygons : List Polygon) (optBoarder : ℚ) (rowsPerStrip : Nat)
    (isPolarityDark optShowArea : Bool) : Image :=
  let e := extent globalPolygons
  let imageHeight := imageSize e.miny e.maxy optBoarder
  { minx := e.minx, miny := e.miny, maxx := e.maxx, maxy := e.maxy
    imageWidth := imageSize e.minx e.maxx optBoarder
    imageHeight := imageHeight
    xOffset := borderOffset optBoarder
    yOffset := borderOffset optBoarder
    rowsPerStrip := clampRowsPerStrip rowsPerStrip imageHeight
    isPolarityDark := isPolarityDark
    optShowArea := optShowArea }

/-! ### The strip sweep -/

/-- The three statements that compute the drawing mode `pol` of a polygon in
the row sweep. -/
def effectivePolarity (polarity : Polarity_t) (isPolarityDark : Bool) : Polarity_t :=
  let pol := polarity
  let pol := if pol = Polarity_t.DARK ∧ !isPolarityDark then Polarity_t.CLEAR else pol
  let pol := if pol = Polarity_t.CLEAR ∧ isPolarityDark then Polarity_t.DARK else pol
  pol

/-- The polygon polarity exclusive-or the image-level inversion, as the
specification words the effective polarity: the polarity itself on a
non-inverted image, DARK and CLEAR exchanged on an inverted one, XOR kept. -/
def specPolarity (polarity : Polarity_t) (isPolarityDark : Bool) : Polarity_t :=
  match polarity, isPolarityDark with
  | Polarity_t.DARK, true => Polarity_t.DARK
  | Polarity_t.CLEAR, true => Polarity_t.CLEAR
  | Polarity_t.DARK, false => Polarity_t.CLEAR
  | Polarity_t.CLEAR, false => Polarity_t.DARK
  | Polarity_t.XOR, _ => Polarity_t.XOR

/-- An element of `activePolys`.  `index` is the position in `globalPolygons`
of the polygon that the pointer `polygon` refers to, and `calls` is the state
of that polygon's span cursor: the number of calls made so far. -/
structure PolygonReference where
  polygon : Polygon
  index : Nat
  calls : Nat

/-- Modelled from the spec: `PolygonReference::operator<` of `polygon.h`,
which is not in the sources.  The specification keeps the active set ordered
by the stacking key of the polygon. -/
def referenceLt (a b : PolygonReference) : Bool :=
  decide (a.polygon.number < b.polygon.number)

/-- Insertion of `r` in front of the first element that is not less than it. -/
def sortedInsert (r : PolygonReference) : List PolygonReference → List PolygonReference
  | [] => [r]
  | s :: rest => if referenceLt s r then s :: sortedInsert r rest else r :: s :: rest

/-- The call `activePolys.sort()`: the stable sort of `std::list`. -/
def listSort : List PolygonReference → List PolygonReference
  | [] => []
  | r :: rest => sortedInsert r (listSort rest)

/-- What the sweep does, in the order in which it does it. -/
inductive Event where
  | push (index : Nat) (y : Int)
  | erase (index : Nat) (y : Int)
  | cursor (index : Nat) (y : Int)
  | line (index : Nat) (y : Int) (x1 x2 : Int) (bufferLine : Int) (pol : Polarity_t)
  | strip (stripCounter : Nat) (ystart : Int) (lines : Nat)
  deriving DecidableEq, Repr

/-- One call of `TIFFWriteEncodedStrip(tif, strip, bitmap, cc)`: `data` is the
first `cc` bytes of the bitmap, `none` when an earlier store left the bitmap. -/
structure StripWrite where
  strip : Nat
  cc : Nat
  data : Option (List Nat)
  deriving DecidableEq, Repr

/-- The state of the drawing loop.  `pending` is the part of `globalPolygons`
from `polyIterator` to the end and `nextIndex` the position of `polyIterator`;
`bitmap` is `none` after a store outside of the allocated buffer; `trace` and
`written` record the events and the strips written so far. -/
structure Sweep where
  pending : List Polygon
  nextIndex : Nat
  activePolys : List PolygonReference
  bitmap : Option (List Nat)
  stripCounter : Nat
  darkPixelsCount : Nat
  written : List StripWrite
  trace : List Event

/-- The loop `while (polyIterator != globalPolygons.end() && y == polyIterator->pixelMinY)`
of a row: push a reference to the polygon, sort, advance. -/
def admitLoop (y : Int) :
    List Polygon → Nat → List PolygonReference → List Event →
      List Polygon × Nat × List PolygonReference × List Event
  | [], i, act, tr => ([], i, act, tr)
  | p :: rest, i, act, tr =>
    if y = p.pixelMinY then
      admitLoop y rest (i + 1)
        (listSort (act ++ [{ polygon := p, index := i, calls := 0 }]))
        (tr ++ [Event.push i y])
    else (p :: rest, i, act, tr)

/-- The loop `for (i = 0; i < sliCount; i += 2) horizontalLine(...)` over the
pairs of one table. -/
def drawSpans (xOffset : Int) (r : PolygonReference) (y bufferLine : Int)
    (pol : Polarity_t) :
    List (Int × Int) → Option (List Nat) → List Event → Option (List Nat) × List Event
  | [], bitmap, tr => (bitmap, tr)
  | (a, b) :: rest, bitmap, tr =>
    let x1 := xOffset + r.polygon.pixelOffsetX + a
    let x2 := xOffset + r.polygon.pixelOffsetX + b
    drawSpans xOffset r y bufferLine pol rest
      (bitmap.bind fun mem => horizontalLine x1 x2 bufferLine mem pol)
      (tr ++ [Event.line r.index y x1 x2 bufferLine pol])

/-- The loop over `activePolys` of a row: a polygon that the row has passed is
erased, any other is asked for its spans, which are drawn.  The result is the
list that remains, the bitmap and the trace. -/
def activeLoop (xOffset : Int) (isPolarityDark : Bool) (y bufferLine : Int) :
    List PolygonReference → Option (List Nat) → List Event →
      List PolygonReference × Option (List Nat) × List Event
  | [], bitmap, tr => ([], bitmap, tr)
  | r :: rest, bitmap, tr =>
    if y > r.polygon.pixelMaxY then
      activeLoop xOffset isPolarityDark y bufferLine rest bitmap (tr ++ [Event.erase r.index y])
    else
      let sliTable := r.polygon.sli r.calls
      let pol := effectivePolarity r.polygon.polarity isPolarityDark
      let d := drawSpans xOffset r y bufferLine pol sliTable bitmap
        (tr ++ [Event.cursor r.index y])
      let next := activeLoop xOffset isPolarityDark y bufferLine rest d.1 d.2
      ({ r with calls := r.calls + 1 } :: next.1, next.2.1, next.2.2)

/-- The body of the row loop for row `y` with row pointer `bufferLine`.
`xOffset` is the value after `xOffset -= minx`. -/
def rowBody (im : Image) (y bufferLine : Int) (s : Sweep) : Sweep :=
  let a := admitLoop y s.pending s.nextIndex s.activePolys s.trace
  let l := activeLoop (im.xOffset - im.minx) im.isPolarityDark y bufferLine a.2.2.1 s.bitmap
    a.2.2.2
  { s with pending := a.1, nextIndex := a.2.1, activePolys := l.1, bitmap := l.2.1,
           trace := l.2.2 }

/-- The loop `for (y = ystart; (y-ystart) < rowsPerStrip && (y <= maxy); y++,
bufferLine += bytesPerScanline)`.  The first argument is the number of rows of
the strip that remain, `rowsPerStrip - (y - ystart)`. -/
def rowLoop (im : Image) : Nat → Int → Int → Sweep → Sweep
  | 0, _, _, s => s
  | n + 1, y, bufferLine, s =>
    if y ≤ im.maxy then
      rowLoop im n (y + 1) (bufferLine + im.bytesPerScanline) (rowBody im y bufferLine s)
    else s

/-- The body of the strip loop: blank the bitmap, sweep the rows of the
strip, write the strip, count the area.  Inside the loop `rowsPerStrip *
stripCounter < imageHeight` (theorem `strip_cond`), so the unsigned
subtraction in `lines` does not wrap.  The byte count `bytesPerScanline*lines`
passed to `TIFFWriteEncodedStrip` is a product of two `unsigned int` values,
taken modulo `2^32`.  The area of an undefined bitmap is counted over no
bytes. -/
def stripBody (im : Image) (ystart : Int) (s : Sweep) : Sweep :=
  let blank : Option (List Nat) :=
    s.bitmap.map fun _ => List.replicate im.bitmapBytes (if im.isPolarityDark then 0x00 else 0xff)
  let s1 := rowLoop im im.rowsPerStrip ystart 0 { s with bitmap := blank }
  let lines := min im.rowsPerStrip (im.imageHeight - im.rowsPerStrip * s1.stripCounter)
  let cc := (im.bytesPerScanline * lines) % 4294967296
  { s1 with
    stripCounter := s1.stripCounter + 1
    written := s1.written ++ [{ strip := s1.stripCounter, cc := cc,
                                data := s1.bitmap.map (List.take cc) }]
    trace := s1.trace ++ [Event.strip s1.stripCounter ystart lines]
    darkPixelsCount :=
      if im.optShowArea then
        s1.darkPixelsCount +
          stripArea (s1.bitmap.getD []) im.bytesPerScanline lines
      else s1.darkPixelsCount }

/-- The loop `for (ystart = miny - yOffset; ystart < int(imageHeight) + miny -
yOffset; ystart += rowsPerStrip)`.  The first argument bounds the number of
strips; `none` means that the bound was reached with the loop still running. -/
def stripLoop (im : Image) : Nat → Int → Sweep → Option Sweep
  | 0, ystart, s =>
    if ystart < (im.imageHeight : Int) + im.miny - im.yOffset then none else some s
  | fuel + 1, ystart, s =>
    if ystart < (im.imageHeight : Int) + im.miny - im.yOffset then
      stripLoop im fuel (ystart + im.rowsPerStrip) (stripBody im ystart s)
    else some s

/-- The state in which the drawing loop starts: `polyIterator` at the head of
`globalPolygons`, no active polygon, the allocated bitmap of `bitmapBytes`
bytes (its content is overwritten by the `memset` of the first strip before it
is read), no strip written. -/
def initSweep (im : Image) (globalPolygons : List Polygon) : Sweep :=
  { pending := globalPolygons, nextIndex := 0, activePolys := []
    bitmap := some (List.replicate im.bitmapBytes 0)
    stripCounter := 0, darkPixelsCount := 0, written := [], trace := [] }

/-- The drawing part of `main` (lines 584 to 681) for the image `im`.  The
strip loop is given `imageHeight` iterations, which theorem `stripLoop_spec`
shows to be enough when `imageHeight` and `rowsPerStrip` are at least 1. -/
def drawPolygons (im : Image) (globalPolygons : List Polygon) : Option Sweep :=
  stripLoop im im.imageHeight (im.miny - im.yOffset) (initSweep im globalPolygons)

/-- The rasterising part of `main` for a non-empty `globalPolygons`: geometry,
then the drawing loop. -/
def render (globalPolygons : List Polygon) (optBoarder : ℚ) (rowsPerStrip : Nat)
    (isPolarityDark optShowArea : Bool) : Option Sweep :=
  drawPolygons (mkImage globalPolygons optBoarder rowsPerStrip isPolarityDark optShowArea)
    globalPolygons

/-- A rectangular polygon with stacking key `number` whose cursor returns, for
each row, the single span of its x-range. -/
def rectangle (number : Int) (polarity : Polarity_t) (x1 x2 y1 y2 : Int) : Polygon :=
  { number := number, pixelMinX := x1, pixelMaxX := x2, pixelMinY := y1, pixelMaxY := y2
    pixelOffsetX := 0, polarity := polarity, sli := fun _ => [(x1, x2)] }

/-! ### Reading the trace -/

/-- The bitwise complement of every byte of a buffer. -/
def complement (bytes : List Nat) : List Nat := bytes.map fun b => b ^^^ 0xFF

/-- Every element of a buffer is an `unsigned char`. -/
def bytesOK (bytes : List Nat) : Prop := ∀ b ∈ bytes, b < 256

/-- The relation between the bitmap `dark` of a run with `isPolarityDark =
true` and the bitmap `light` of the run with `isPolarityDark = false`: `light`
is the complement of `dark`, byte for byte (and both are undefined together). -/
def BitmapRel (dark light : Option (List Nat)) : Prop :=
  light = dark.map complement ∧ ∀ m, dark = some m → bytesOK m

/-- A strip write with its data complemented. -/
def StripWrite.complement (w : StripWrite) : StripWrite :=
  { w with data := w.data.map Gerb2Tiff.complement }

/-- The relation between the states of the two runs inside a strip. -/
def RowRel (dark light : Sweep) : Prop :=
  light.pending = dark.pending ∧ light.nextIndex = dark.nextIndex ∧
  light.activePolys = dark.activePolys ∧ light.stripCounter = dark.stripCounter ∧
  light.written = dark.written.map StripWrite.complement ∧
  (∀ w ∈ dark.written, ∀ m, w.data = some m → bytesOK m) ∧
  BitmapRel dark.bitmap light.bitmap

/-- The relation between the states of the two runs between two strips: as
`RowRel`, except that the bitmaps, which the next strip blanks, need only be
defined together. -/
def StripRel (dark light : Sweep) : Prop :=
  light.pending = dark.pending ∧ light.nextIndex = dark.nextIndex ∧
  light.activePolys = dark.activePolys ∧ light.stripCounter = dark.stripCounter ∧
  light.written = dark.written.map StripWrite.complement ∧
  (∀ w ∈ dark.written, ∀ m, w.data = some m → bytesOK m) ∧
  light.bitmap.isSome = dark.bitmap.isSome

/-! ### The area report -/

/-- The value printed as `dark  area (sq.cm)`:
`darkPixelsCount*2.54*2.54/(imageDPI*imageDPI)`, over exact rationals. -/
def darkAreaReport (darkPixelsCount : Nat) (imageDPI : ℚ) : ℚ :=
  (darkPixelsCount : ℚ) * (254 / 100) * (254 / 100) / (imageDPI * imageDPI)

/-- The value printed as `clear area (sq.cm)`:
`((imageHeight*imageWidth) - darkPixelsCount*2.54*2.54)/(imageDPI*imageDPI)`,
over exact rationals.  The product `imageHeight*imageWidth` is an `unsigned`
product. -/
def clearAreaReport (imageHeight imageWidth darkPixelsCount : Nat) (imageDPI : ℚ) : ℚ :=
  (((imageHeight * imageWidth : Nat) : ℚ) -
      (darkPixelsCount : ℚ) * (254 / 100) * (254 / 100)) / (imageDPI * imageDPI)

/-! ### The end of `main` -/

/-- How the process ends: through `error(message)`, which prints the message
and calls `exit(1)`, or by a `return` from `main`. -/
inductive Exit where
  | error (message : String)
  | returned (status : Nat)
  deriving DecidableEq, Repr

/-- What a run of `main` has done when it ends: how it ended, whether
`TIFFOpen` was called on the output file, and the strips written. -/
structure Run where
  exit : Exit
  tiffOpenCalled : Bool
  written : List StripWrite
  deriving DecidableEq, Repr

/-- The part of `main` after the parse loop (lines 444 to 695), all documents
having parsed without error; `gerbers` is `first :: rest` (the parse loop
pushes at least one document).  `tiffOpenOk` and `mallocOk` say whether
`TIFFOpen` and `malloc` succeed.  The result is `none` when the strip loop
does not end within its bound. -/
def mainAfterParse (optBoarder : ℚ) (rowsPerStrip : Nat)
    (optInvertPolarity optTestOnly optShowArea tiffOpenOk mallocOk : Bool)
    (first : Gerber) (rest : List Gerber) : Option Run :=
  let globalPolygons := mergeGerbers (first :: rest)
  if globalPolygons.length = 0 then
    some { exit := Exit.error "no image", tiffOpenCalled := false, written := [] }
  else
    let im := mkImage globalPolygons optBoarder rowsPerStrip
      (isPolarityDarkOf optInvertPolarity first.imagePolarityDark) optShowArea
    if optTestOnly then
      some { exit := Exit.returned 0, tiffOpenCalled := false, written := [] }
    else if !tiffOpenOk then
      some { exit := Exit.returned 1, tiffOpenCalled := true, written := [] }
    else if !mallocOk then
      some { exit := Exit.error "cannot allocate memory", tiffOpenCalled := true,
             written := [] }
    else
      (drawPolygons im globalPolygons).map fun s =>
        { exit := Exit.returned 0, tiffOpenCalled := true, written := s.written }

/-! ### Positions of the calls of `horizontalLine` -/

theorem shift80 (k : Nat) (hk : k < 8) : 0x80 >>> k = 2 ^ (7 - k) := by
  interval_cases k <;> rfl

theorem getPixel_eq_testBit (buf : List Nat) (p : Nat) :
    getPixel buf p = (buf.getD (p / 8) 0).testBit (7 - p % 8) := by
  unfold getPixel
  rw [shift80 _ (Nat.mod_lt _ (by norm_num)), Nat.and_two_pow]
  cases (buf.getD (p / 8) 0).testBit (7 - p % 8) <;> simp

theorem getD_set_zero (mem : List Nat) (i j a : Nat) :
    (mem.set i a).getD j 0 = if i = j ∧ i < mem.length then a else mem.getD j 0 := by
  simp only [List.getD_eq_getElem?_getD, List.getElem?_set]
  by_cases h : i = j
  · by_cases h' : i < mem.length
    · subst h
      simp [h']
    · subst h
      simp [h', List.getElem?_eq_none (Nat.le_of_not_lt h')]
  · simp [h]

theorem poke_spec (mem : List Nat) (p : Nat) (f : Nat → Nat) (hp : p < mem.length) :
    ∃ mem', poke mem (p : Int) f = some mem' ∧ mem'.length = mem.length ∧
      ∀ j : Nat, mem'.getD j 0 = if j = p then f (mem.getD j 0) else mem.getD j 0 := by
  refine ⟨mem.set p (f (mem.getD p 0)), ?_, by simp, ?_⟩
  · simp [poke, hp]
  · intro j
    rw [getD_set_zero]
    by_cases h : p = j
    · subst h; simp [hp]
    · have h' : ¬ j = p := fun e => h e.symm
      simp [h, h']

theorem pokeRun_spec (f : Nat → Nat) (n : Nat) : ∀ (p : Nat) (mem : List Nat),
    p + n ≤ mem.length →
    ∃ mem', pokeRun f n (p : Int) mem = some mem' ∧ mem'.length = mem.length ∧
      ∀ j : Nat, mem'.getD j 0 =
        if p ≤ j ∧ j < p + n then f (mem.getD j 0) else mem.getD j 0 := by
  induction n with
  | zero =>
    intro p mem _
    refine ⟨mem, rfl, rfl, fun j => ?_⟩
    have : ¬ (p ≤ j ∧ j < p + 0) := by omega
    rw [if_neg this]
  | succ n ih =>
    intro p mem h
    obtain ⟨m1, h1, hl1, hg1⟩ := poke_spec mem p f (by omega)
    obtain ⟨m2, h2, hl2, hg2⟩ := ih (p + 1) m1 (by omega)
    refine ⟨m2, ?_, by omega, ?_⟩
    · simp only [pokeRun, h1, Option.bind]
      exact_mod_cast h2
    · intro j
      rw [hg2 j, hg1 j]
      by_cases hj : j = p
      · subst hj; simp
      · by_cases hj2 : p + 1 ≤ j ∧ j < p + 1 + n
        · have : p ≤ j ∧ j < p + (n + 1) := by omega
          simp [hj, hj2, this]
        · have : ¬ (p ≤ j ∧ j < p + (n + 1)) := by omega
          simp [hj, hj2, this]

theorem fillSingle_bit : ∀ b1 < 8, ∀ b2 < 8, b1 ≤ b2 → ∀ k < 8,
    (fillSingle.getD (b1 + b2 * 8) 0).testBit (7 - k) = decide (b1 ≤ k ∧ k ≤ b2) := by
  decide

theorem fillFirst_bit : ∀ b1 < 8, ∀ k < 8,
    (fillFirst.getD b1 0).testBit (7 - k) = decide (b1 ≤ k) := by
  decide

theorem fillLast_bit : ∀ b2 < 8, ∀ k < 8,
    (fillLast.getD b2 0).testBit (7 - k) = decide (k ≤ b2) := by
  decide

theorem testBit_255 (i : Nat) (hi : i < 8) : (0xFF : Nat).testBit i = true := by
  interval_cases i <;> rfl

theorem or_bit (b m i : Nat) :
    (b ||| m).testBit i = if m.testBit i then drawn .DARK (b.testBit i) else b.testBit i := by
  rw [Nat.testBit_or]; cases m.testBit i <;> simp [drawn]

theorem andnot_bit (b m i : Nat) (hi : i < 8) :
    (b &&& bnot8 m).testBit i =
      if m.testBit i then drawn .CLEAR (b.testBit i) else b.testBit i := by
  rw [Nat.testBit_and, bnot8, Nat.testBit_xor, testBit_255 i hi]
  cases m.testBit i <;> simp [drawn]

theorem xor_bit (b m i : Nat) :
    (b ^^^ m).testBit i = if m.testBit i then drawn .XOR (b.testBit i) else b.testBit i := by
  rw [Nat.testBit_xor]; cases m.testBit i <;> cases b.testBit i <;> simp [drawn]


theorem span_shape (fS fF fL fM : Nat → Nat) (mem : List Nat) (px1 px2 : Nat)
    (h12 : px1 ≤ px2) (h2 : px2 < mem.length) :
    ∃ mem', (if (px1 : Int) = (px2 : Int) then poke mem px1 fS else
        (poke mem px1 fF).bind fun m1 => (poke m1 px2 fL).bind fun m2 =>
          pokeRun fM ((px2 : Int) - ((px1 : Int) + 1)).toNat ((px1 : Int) + 1) m2) = some mem' ∧
      mem'.length = mem.length ∧
      ∀ j : Nat, mem'.getD j 0 =
        if j = px1 ∧ px1 = px2 then fS (mem.getD j 0)
        else if j = px1 then fF (mem.getD j 0)
        else if j = px2 then fL (mem.getD j 0)
        else if px1 < j ∧ j < px2 then fM (mem.getD j 0)
        else mem.getD j 0 := by
  by_cases he : px1 = px2
  · subst he
    obtain ⟨m', h, hl, hg⟩ := poke_spec mem px1 fS h2
    refine ⟨m', by simpa using h, hl, fun j => ?_⟩
    rw [hg j]
    split_ifs <;> first | rfl | (exfalso; omega)
  · have hne : ¬ ((px1 : Int) = (px2 : Int)) := by omega
    obtain ⟨m1, h1, hl1, hg1⟩ := poke_spec mem px1 fF (by omega)
    obtain ⟨m2, h2', hl2, hg2⟩ := poke_spec m1 px2 fL (by omega)
    obtain ⟨m3, h3, hl3, hg3⟩ := pokeRun_spec fM (px2 - (px1 + 1)) (px1 + 1) m2 (by omega)
    have hn : ((px2 : Int) - ((px1 : Int) + 1)).toNat = px2 - (px1 + 1) := by omega
    refine ⟨m3, ?_, by omega, fun j => ?_⟩
    · rw [if_neg hne, h1, Option.bind, h2', Option.bind, hn]
      exact_mod_cast h3
    · rw [hg3 j, hg2 j, hg1 j]
      split_ifs <;> first | rfl | (exfalso; omega)

theorem horizontalLine_pixels (B : Nat) (mem : List Nat) (lo hi : Nat) (hle : lo ≤ hi)
    (hin : B + hi / 8 < mem.length) (mode : Polarity_t) :
    ∃ mem', horizontalLine (lo : Int) (hi : Int) (B : Int) mem mode = some mem' ∧
      mem'.length = mem.length ∧
      ∀ q : Nat, getPixel mem' q =
        if 8 * B + lo ≤ q ∧ q ≤ 8 * B + hi then drawn mode (getPixel mem q)
        else getPixel mem q := by
  have hgt : ¬ ((lo : Int) > (hi : Int)) := by omega
  have hb1 : ((lo : Int) % 8).toNat = lo % 8 := by omega
  have hb2 : ((hi : Int) % 8).toNat = hi % 8 := by omega
  have hp1 : (B : Int) + (lo : Int) / 8 = ((B + lo / 8 : Nat) : Int) := by omega
  have hp2 : (B : Int) + (hi : Int) / 8 = ((B + hi / 8 : Nat) : Int) := by omega
  have h12 : B + lo / 8 ≤ B + hi / 8 := by omega
  have hk1 : lo % 8 < 8 := Nat.mod_lt _ (by norm_num)
  have hk2 : hi % 8 < 8 := Nat.mod_lt _ (by norm_num)
  cases mode
  · obtain ⟨mem', h, hl, hg⟩ := span_shape
      (fun b => b ||| fillSingle.getD (lo % 8 + hi % 8 * 8) 0)
      (fun b => b ||| fillFirst.getD (lo % 8) 0)
      (fun b => b ||| fillLast.getD (hi % 8) 0)
      (fun _ => 0xFF) mem (B + lo / 8) (B + hi / 8) h12 hin
    refine ⟨mem', ?_, hl, fun q => ?_⟩
    · simp only [horizontalLine, if_neg hgt, hb1, hb2, hp1, hp2, memset]
      exact h
    · have hq : q % 8 < 8 := Nat.mod_lt _ (by norm_num)
      have h7 : 7 - q % 8 < 8 := by omega
      rw [getPixel_eq_testBit, getPixel_eq_testBit, hg (q / 8)]
      split_ifs with c1 c2 c3 c4 c5 c6 c7 c8
      all_goals first
        | rfl
        | (exfalso; omega)
        | (rw [or_bit, fillSingle_bit _ hk1 _ hk2 (by omega) _ hq]; simp [drawn]; omega)
        | (rw [or_bit, fillFirst_bit _ hk1 _ hq]; simp [drawn]; omega)
        | (rw [or_bit, fillLast_bit _ hk2 _ hq]; simp [drawn]; omega)
        | (rw [testBit_255 _ h7]; simp [drawn])
  · obtain ⟨mem', h, hl, hg⟩ := span_shape
      (fun b => b &&& bnot8 (fillSingle.getD (lo % 8 + hi % 8 * 8) 0))
      (fun b => b &&& bnot8 (fillFirst.getD (lo % 8) 0))
      (fun b => b &&& bnot8 (fillLast.getD (hi % 8) 0))
      (fun _ => 0x0) mem (B + lo / 8) (B + hi / 8) h12 hin
    refine ⟨mem', ?_, hl, fun q => ?_⟩
    · simp only [horizontalLine, if_neg hgt, hb1, hb2, hp1, hp2, memset]
      exact h
    · have hq : q % 8 < 8 := Nat.mod_lt _ (by norm_num)
      have h7 : 7 - q % 8 < 8 := by omega
      rw [getPixel_eq_testBit, getPixel_eq_testBit, hg (q / 8)]
      split_ifs with c1 c2 c3 c4 c5 c6 c7 c8
      all_goals first
        | rfl
        | (exfalso; omega)
        | (rw [andnot_bit _ _ _ h7, fillSingle_bit _ hk1 _ hk2 (by omega) _ hq]
           simp [drawn]; omega)
        | (rw [andnot_bit _ _ _ h7, fillFirst_bit _ hk1 _ hq]; simp [drawn]; omega)
        | (rw [andnot_bit _ _ _ h7, fillLast_bit _ hk2 _ hq]; simp [drawn]; omega)
        | (rw [Nat.zero_testBit]; simp [drawn])
  · obtain ⟨mem', h, hl, hg⟩ := span_shape
      (fun b => b ^^^ fillSingle.getD (lo % 8 + hi % 8 * 8) 0)
      (fun b => b ^^^ fillFirst.getD (lo % 8) 0)
      (fun b => b ^^^ fillLast.getD (hi % 8) 0)
      (fun b => b ^^^ 0xFF) mem (B + lo / 8) (B + hi / 8) h12 hin
    refine ⟨mem', ?_, hl, fun q => ?_⟩
    · simp only [horizontalLine, if_neg hgt, hb1, hb2, hp1, hp2]
      exact h
    · have hq : q % 8 < 8 := Nat.mod_lt _ (by norm_num)
      have h7 : 7 - q % 8 < 8 := by omega
      rw [getPixel_eq_testBit, getPixel_eq_testBit, hg (q / 8)]
      split_ifs with c1 c2 c3 c4 c5 c6 c7 c8
      all_goals first
        | rfl
        | (exfalso; omega)
        | (rw [xor_bit, fillSingle_bit _ hk1 _ hk2 (by omega) _ hq]; simp [drawn]; omega)
        | (rw [xor_bit, fillFirst_bit _ hk1 _ hq]; simp [drawn]; omega)
        | (rw [xor_bit, fillLast_bit _ hk2 _ hq]; simp [drawn]; omega)
        | (rw [xor_bit, testBit_255 _ h7]; simp [drawn])

theorem horizontalLine_swap (x1 x2 buffer : Int) (mem : List Nat) (mode : Polarity_t)
    (h : x1 > x2) :
    horizontalLine x1 x2 buffer mem mode = horizontalLine x2 x1 buffer mem mode := by
  have h' : ¬ (x2 > x1) := by omega
  simp only [horizontalLine, if_pos h, if_neg h']

/-- C1. `horizontalLine` is pixel-exact in the three modes, pixels being stored
MSB first: for a row buffer and `x1`, `x2` inside it, in either order, the call
succeeds, keeps the length, gives every pixel between `min x1 x2` and
`max x1 x2` the value of the mode (1 for DARK, 0 for CLEAR, the negation for
XOR) and keeps every other pixel; the span 3..5 of one byte is the mask 0x1C. -/
theorem horizontalLine_pixel_exact (buf : List Nat) (x1 x2 : Int) (mode : Polarity_t)
    (h1 : 0 ≤ x1) (h1' : x1 < 8 * (buf.length : Int))
    (h2 : 0 ≤ x2) (h2' : x2 < 8 * (buf.length : Int)) :
    (∃ buf', horizontalLine x1 x2 0 buf mode = some buf' ∧ buf'.length = buf.length ∧
      ∀ p : Nat, getPixel buf' p =
        if min x1 x2 ≤ (p : Int) ∧ (p : Int) ≤ max x1 x2 then drawn mode (getPixel buf p)
        else getPixel buf p) ∧
    (∀ b : Nat, horizontalLine 3 5 0 [b] Polarity_t.DARK = some [b ||| 0x1C] ∧
      horizontalLine 3 5 0 [b] Polarity_t.CLEAR = some [b &&& bnot8 0x1C] ∧
      horizontalLine 3 5 0 [b] Polarity_t.XOR = some [b ^^^ 0x1C]) := by
  refine ⟨?_, fun b => ⟨rfl, rfl, rfl⟩⟩
  obtain ⟨n1, rfl⟩ := Int.eq_ofNat_of_zero_le h1
  obtain ⟨n2, rfl⟩ := Int.eq_ofNat_of_zero_le h2
  by_cases hle : n1 ≤ n2
  · obtain ⟨m, h, hl, hg⟩ := horizontalLine_pixels 0 buf n1 n2 hle (by omega) mode
    refine ⟨m, by simpa using h, hl, fun p => ?_⟩
    rw [hg p]
    have e1 : min (n1 : Int) (n2 : Int) = n1 := by omega
    have e2 : max (n1 : Int) (n2 : Int) = n2 := by omega
    rw [e1, e2]
    by_cases c : 8 * 0 + n1 ≤ p ∧ p ≤ 8 * 0 + n2
    · have c' : (n1 : Int) ≤ p ∧ (p : Int) ≤ n2 := by omega
      rw [if_pos c, if_pos c']
    · have c' : ¬ ((n1 : Int) ≤ p ∧ (p : Int) ≤ n2) := by omega
      rw [if_neg c, if_neg c']
  · obtain ⟨m, h, hl, hg⟩ := horizontalLine_pixels 0 buf n2 n1 (by omega) (by omega) mode
    refine ⟨m, ?_, hl, fun p => ?_⟩
    · rw [horizontalLine_swap _ _ _ _ _ (by omega)]
      simpa using h
    rw [hg p]
    have e1 : min (n1 : Int) (n2 : Int) = n2 := by omega
    have e2 : max (n1 : Int) (n2 : Int) = n1 := by omega
    rw [e1, e2]
    by_cases c : 8 * 0 + n2 ≤ p ∧ p ≤ 8 * 0 + n1
    · have c' : (n2 : Int) ≤ p ∧ (p : Int) ≤ n1 := by omega
      rw [if_pos c, if_pos c']
    · have c' : ¬ ((n2 : Int) ≤ p ∧ (p : Int) ≤ n1) := by omega
      rw [if_neg c, if_neg c']

theorem horizontalLine_pixel_exact_witness :
    (∃ buf', horizontalLine 21 3 0 [0x0F, 0xF0, 0xAA] Polarity_t.XOR = some buf' ∧
      buf'.length = [0x0F, 0xF0, 0xAA].length ∧
      ∀ p : Nat, getPixel buf' p =
        if min (21 : Int) 3 ≤ (p : Int) ∧ (p : Int) ≤ max (21 : Int) 3 then
          drawn Polarity_t.XOR (getPixel [0x0F, 0xF0, 0xAA] p)
        else getPixel [0x0F, 0xF0, 0xAA] p) ∧
    (∀ b : Nat, horizontalLine 3 5 0 [b] Polarity_t.DARK = some [b ||| 0x1C] ∧
      horizontalLine 3 5 0 [b] Polarity_t.CLEAR = some [b &&& bnot8 0x1C] ∧
      horizontalLine 3 5 0 [b] Polarity_t.XOR = some [b ^^^ 0x1C]) :=
  horizontalLine_pixel_exact [0x0F, 0xF0, 0xAA] 21 3 Polarity_t.XOR
    (by decide) (by decide) (by decide) (by decide)

/-! ### The effective polarity -/

theorem effectivePolarity_eq (polarity : Polarity_t) (isPolarityDark : Bool) :
    effectivePolarity polarity isPolarityDark =
      match polarity with
      | Polarity_t.XOR => Polarity_t.XOR
      | _ => if isPolarityDark then Polarity_t.DARK else Polarity_t.CLEAR := by
  cases polarity <;> cases isPolarityDark <;> rfl

/-- C2 (the code at the failing input). On a non-inverted image
(`isPolarityDark = true`) a CLEAR polygon is drawn in DARK mode, and on an
inverted image a CLEAR polygon is drawn in CLEAR mode, where the polarity
exclusive-or the inversion is CLEAR, respectively DARK; the sweep of a single
CLEAR rectangle 0..7 x 0..0 on a non-inverted image calls `horizontalLine` in
DARK mode and writes the byte 0xFF. -/
theorem effectivePolarity_clear_polygon :
    effectivePolarity Polarity_t.CLEAR true = Polarity_t.DARK ∧
    specPolarity Polarity_t.CLEAR true = Polarity_t.CLEAR ∧
    effectivePolarity Polarity_t.CLEAR false = Polarity_t.CLEAR ∧
    specPolarity Polarity_t.CLEAR false = Polarity_t.DARK ∧
    (drawPolygons
        { minx := 0, miny := 0, maxx := 7, maxy := 0, imageWidth := 8, imageHeight := 1
          xOffset := 0, yOffset := 0, rowsPerStrip := 1, isPolarityDark := true
          optShowArea := false }
        [rectangle 0 Polarity_t.CLEAR 0 7 0 0]).map (fun s => (s.trace, s.written)) =
      some ([Event.push 0 0, Event.cursor 0 0, Event.line 0 0 0 7 0 Polarity_t.DARK,
             Event.strip 0 0 1],
            [{ strip := 0, cc := 1, data := some [0xFF] }]) := by
  refine ⟨rfl, rfl, rfl, rfl, ?_⟩
  decide

/-! ### The area count -/

theorem areaInner_eq (bitmap : List Nat) (p : Nat) : ∀ (n acc : Nat),
    areaInner bitmap p n acc = acc + n * nbitsTable.getD (bitmap.getD p 0) 0 := by
  intro n
  induction n with
  | zero => intro acc; simp [areaInner]
  | succ n ih =>
    intro acc
    rw [areaInner, ih]
    ring

theorem areaRows_eq (bitmap : List Nat) (bps : Nat) : ∀ (n i acc : Nat),
    areaRows bitmap bps n i acc =
      acc + ((List.range n).map fun k =>
        bps * nbitsTable.getD (bitmap.getD (bps * (i + k)) 0) 0).sum := by
  intro n
  induction n with
  | zero => intro i acc; simp [areaRows]
  | succ n ih =>
    intro i acc
    rw [areaRows, ih, areaInner_eq, List.range_succ_eq_map, List.map_cons, List.sum_cons,
      List.map_map]
    have : ((fun k => bps * nbitsTable.getD (bitmap.getD (bps * (i + k)) 0) 0) ∘ Nat.succ) =
        fun k => bps * nbitsTable.getD (bitmap.getD (bps * (i + 1 + k)) 0) 0 := by
      funext k
      simp only [Function.comp, Nat.succ_eq_add_one]
      rw [show i + (k + 1) = i + 1 + k by omega]
    rw [this]
    simp only [Nat.add_zero]
    ring

set_option maxRecDepth 100000 in
/-- The popcount table itself is right: entry `b` is the number of 1-bits of `b`. -/
theorem nbitsTable_eq_popcount8 : ∀ b < 256, nbitsTable.getD b 0 = popcount8 b := by
  decide

/-- What the area block adds for a strip: for each of the `lines` rows,
`bytesPerScanline` times the bit count of the first byte of the row. -/
theorem stripArea_eq (bitmap : List Nat) (bps lines : Nat) :
    stripArea bitmap bps lines =
      ((List.range lines).map fun i =>
        bps * nbitsTable.getD (bitmap.getD (bps * i) 0) 0).sum := by
  rw [stripArea, areaRows_eq]
  simp

/-- C4 (the code at the failing input). For the one-row strip with bytes
`[0xFF, 0x80]` (a DARK rectangle 0..8 x 0..0, image 9 x 1, two bytes per
scanline, area reporting on) the strip that is written holds 9 one-bits and
`darkPixelsCount` becomes 16: the first byte of the row is counted twice and
the second byte never. -/
theorem stripArea_counts_first_byte :
    stripArea [0xFF, 0x80] 2 1 = 16 ∧ popcountBytes [0xFF, 0x80] = 9 ∧
    (drawPolygons
        { minx := 0, miny := 0, maxx := 8, maxy := 0, imageWidth := 9, imageHeight := 1
          xOffset := 0, yOffset := 0, rowsPerStrip := 1, isPolarityDark := true
          optShowArea := true }
        [rectangle 0 Polarity_t.DARK 0 8 0 0]).map
        (fun s => (s.written, s.darkPixelsCount)) =
      some ([{ strip := 0, cc := 2, data := some [0xFF, 0x80] }], 16) := by
  decide

/-! ### The merge of the documents -/

theorem listMerge_nil_right {α : Type} (lt : α → α → Bool) (l : List α) :
    listMerge lt l [] = l := by
  cases l <;> simp [listMerge]

theorem listMerge_perm {α : Type} (lt : α → α → Bool) :
    ∀ l1 l2 : List α, (listMerge lt l1 l2).Perm (l1 ++ l2) := by
  intro l1
  induction l1 with
  | nil => intro l2; simp [listMerge]
  | cons x l1 ih1 =>
    intro l2
    induction l2 with
    | nil => simp [listMerge]
    | cons y l2 ih2 =>
      by_cases h : lt y x = true
      · simp only [listMerge, h, if_true]
        refine (List.Perm.cons y ih2).trans ?_
        exact (@List.perm_middle _ y (x :: l1) l2).symm
      · simp only [listMerge, h]
        exact List.Perm.cons x (ih1 (y :: l2))

theorem listMerge_sorted (l1 : List Polygon) :
    ∀ l2 : List Polygon,
    l1.Pairwise (fun a b => a.pixelMinY ≤ b.pixelMinY) →
    l2.Pairwise (fun a b => a.pixelMinY ≤ b.pixelMinY) →
    (listMerge polygonLt l1 l2).Pairwise (fun a b => a.pixelMinY ≤ b.pixelMinY) := by
  induction l1 with
  | nil => intro l2 _ h2; simpa [listMerge] using h2
  | cons x l1 ih1 =>
    intro l2
    induction l2 with
    | nil => intro h1 _; simpa [listMerge] using h1
    | cons y l2 ih2 =>
      intro h1 h2
      have hx := List.pairwise_cons.mp h1
      have hy := List.pairwise_cons.mp h2
      by_cases h : polygonLt y x = true
      · simp only [listMerge, h, if_true]
        have hyx : y.pixelMinY < x.pixelMinY := by simpa [polygonLt] using h
        refine List.pairwise_cons.mpr ⟨?_, ih2 h1 hy.2⟩
        intro z hz
        have hz' := (listMerge_perm polygonLt (x :: l1) l2).subset hz
        rcases List.mem_append.mp hz' with hz1 | hz2
        · rcases List.mem_cons.mp hz1 with rfl | hz1
          · omega
          · have := hx.1 z hz1
            omega
        · exact hy.1 z hz2
      · simp only [listMerge, h]
        have hyx : x.pixelMinY ≤ y.pixelMinY := by
          have : ¬ y.pixelMinY < x.pixelMinY := by simpa [polygonLt] using h
          omega
        refine List.pairwise_cons.mpr ⟨?_, ih1 (y :: l2) hx.2 h2⟩
        intro z hz
        have hz' := (listMerge_perm polygonLt l1 (y :: l2)).subset hz
        rcases List.mem_append.mp hz' with hz1 | hz2
        · exact hx.1 z hz1
        · rcases List.mem_cons.mp hz2 with rfl | hz2
          · exact hyx
          · have := hy.1 z hz2
            omega

theorem listMerge_filter (k : Int) (l1 : List Polygon) :
    ∀ l2 : List Polygon,
    l1.Pairwise (fun a b => a.pixelMinY ≤ b.pixelMinY) →
    (listMerge polygonLt l1 l2).filter (fun p => decide (p.pixelMinY = k)) =
      l1.filter (fun p => decide (p.pixelMinY = k)) ++
        l2.filter (fun p => decide (p.pixelMinY = k)) := by
  induction l1 with
  | nil => intro l2 _; simp [listMerge]
  | cons x l1 ih1 =>
    intro l2
    induction l2 with
    | nil => intro _; simp [listMerge]
    | cons y l2 ih2 =>
      intro h1
      have hx := List.pairwise_cons.mp h1
      by_cases h : polygonLt y x = true
      · simp only [listMerge, h, if_true]
        have hyx : y.pixelMinY < x.pixelMinY := by simpa [polygonLt] using h
        by_cases hk : y.pixelMinY = k
        · have hnone : (x :: l1).filter (fun p => decide (p.pixelMinY = k)) = [] := by
            rw [List.filter_eq_nil_iff]
            intro z hz
            have : x.pixelMinY ≤ z.pixelMinY := by
              rcases List.mem_cons.mp hz with rfl | hz1
              · exact le_refl _
              · exact hx.1 z hz1
            simp only [decide_eq_true_eq]
            omega
          rw [List.filter_cons_of_pos (by simpa using hk), ih2 h1, hnone,
            List.filter_cons_of_pos (by simpa using hk)]
          simp
        · rw [List.filter_cons_of_neg (by simpa using hk), ih2 h1,
            List.filter_cons_of_neg (l := l2) (by simpa using hk)]
      · have h' : polygonLt y x = false := by simpa using h
        simp only [listMerge, h', Bool.false_eq_true, if_false]
        have e1 : ∀ l : List Polygon, (x :: l).filter (fun p => decide (p.pixelMinY = k)) =
            if x.pixelMinY = k then x :: l.filter (fun p => decide (p.pixelMinY = k))
            else l.filter (fun p => decide (p.pixelMinY = k)) := by
          intro l
          rw [List.filter_cons]
          by_cases hk : x.pixelMinY = k <;> simp [hk]
        rw [e1, e1, ih1 (y :: l2) hx.2]
        split_ifs <;> simp

theorem mergeFold_spec (gerbers : List Gerber) :
    ∀ acc : List Polygon,
    acc.Pairwise (fun a b => a.pixelMinY ≤ b.pixelMinY) →
    (∀ g ∈ gerbers, g.polygons.Pairwise (fun a b => a.pixelMinY ≤ b.pixelMinY)) →
    (gerbers.foldl (fun gp g => listMerge polygonLt gp g.polygons) acc).Pairwise
        (fun a b => a.pixelMinY ≤ b.pixelMinY) ∧
    (gerbers.foldl (fun gp g => listMerge polygonLt gp g.polygons) acc).Perm
        (acc ++ (gerbers.map Gerber.polygons).flatten) ∧
    ∀ k : Int,
      (gerbers.foldl (fun gp g => listMerge polygonLt gp g.polygons) acc).filter
          (fun p => decide (p.pixelMinY = k)) =
        (acc ++ (gerbers.map Gerber.polygons).flatten).filter
          (fun p => decide (p.pixelMinY = k)) := by
  induction gerbers with
  | nil => intro acc h _; simpa using h
  | cons g rest ih =>
    intro acc hacc hall
    have hg := hall g (List.mem_cons_self _ _)
    have hrest : ∀ g' ∈ rest, g'.polygons.Pairwise (fun a b => a.pixelMinY ≤ b.pixelMinY) :=
      fun g' hg' => hall g' (List.mem_cons_of_mem _ hg')
    obtain ⟨s, p, f⟩ := ih (listMerge polygonLt acc g.polygons)
      (listMerge_sorted acc g.polygons hacc hg) hrest
    refine ⟨s, ?_, ?_⟩
    · refine p.trans ?_
      simp only [List.map_cons, List.flatten_cons, ← List.append_assoc]
      exact List.Perm.append_right _ (listMerge_perm polygonLt acc g.polygons)
    · intro k
      rw [List.foldl_cons, f k]
      simp only [List.map_cons, List.flatten_cons, List.filter_append]
      rw [listMerge_filter k acc g.polygons hacc]
      simp

/-- C6. For documents whose polygon lists are each sorted ascending by
`pixelMinY`, the sequence that the merge loop builds is sorted ascending by
`pixelMinY`, is a permutation of the concatenation of the lists, has the sum
of their lengths as its length, and is stable: for every key the polygons with
that `pixelMinY` appear in the order of the concatenation (document order
first, then the order inside the document). -/
theorem mergeGerbers_sorted_stable (gerbers : List Gerber)
    (h : ∀ g ∈ gerbers, g.polygons.Pairwise (fun a b => a.pixelMinY ≤ b.pixelMinY)) :
    (mergeGerbers gerbers).Pairwise (fun a b => a.pixelMinY ≤ b.pixelMinY) ∧
    (mergeGerbers gerbers).Perm ((gerbers.map Gerber.polygons).flatten) ∧
    (mergeGerbers gerbers).length = (gerbers.map fun g => g.polygons.length).sum ∧
    ∀ k : Int,
      (mergeGerbers gerbers).filter (fun p => decide (p.pixelMinY = k)) =
        ((gerbers.map Gerber.polygons).flatten).filter (fun p => decide (p.pixelMinY = k)) := by
  obtain ⟨s, p, f⟩ := mergeFold_spec gerbers [] List.Pairwise.nil h
  refine ⟨s, by simpa using p, ?_, fun k => by simpa using f k⟩
  have := p.length_eq
  simp only [List.nil_append, List.length_flatten, List.map_map] at this
  exact this

theorem mergeGerbers_sorted_stable_witness :
    (mergeGerbers
        [{ polygons := [rectangle 0 Polarity_t.DARK 0 1 2 3, rectangle 1 Polarity_t.DARK 0 1 5 6]
           imagePolarityDark := true },
         { polygons := [rectangle 2 Polarity_t.CLEAR 0 1 2 2, rectangle 3 Polarity_t.DARK 0 1 4 9]
           imagePolarityDark := true }]).Pairwise (fun a b => a.pixelMinY ≤ b.pixelMinY) ∧
    (mergeGerbers
        [{ polygons := [rectangle 0 Polarity_t.DARK 0 1 2 3, rectangle 1 Polarity_t.DARK 0 1 5 6]
           imagePolarityDark := true },
         { polygons := [rectangle 2 Polarity_t.CLEAR 0 1 2 2, rectangle 3 Polarity_t.DARK 0 1 4 9]
           imagePolarityDark := true }]).map Polygon.number = [0, 2, 3, 1] :=
  ⟨(mergeGerbers_sorted_stable _ (by
      intro g hg
      simp only [List.mem_cons, List.mem_singleton, List.not_mem_nil, or_false] at hg
      rcases hg with rfl | rfl <;> simp [rectangle])).1,
   by simp [mergeGerbers, listMerge, polygonLt, rectangle]⟩

/-! ### Image geometry -/

theorem imageSize_whole (lo hi : Int) (b : Nat) (h : lo ≤ hi) :
    ((imageSize lo hi (b : ℚ) : Nat) : Int) = (hi - lo) + 2 * b + 1 := by
  unfold imageSize
  have e : (((hi - lo : Int) : ℚ) + 2 * (b : ℚ) + 1) = (((hi - lo) + 2 * b + 1 : Int) : ℚ) := by
    push_cast; ring
  rw [e, Int.ceil_intCast, Int.toNat_of_nonneg (by omega)]

theorem imageSize_margin (lo hi : Int) (b : ℚ) (hb : 0 ≤ b) (h : lo ≤ hi) :
    ((imageSize lo hi b : Nat) : Int) - 1 - (hi - lo) = ⌈2 * b⌉ := by
  unfold imageSize
  have e : (((hi - lo : Int) : ℚ) + 2 * b + 1) = 2 * b + (((hi - lo) + 1 : Int) : ℚ) := by
    push_cast; ring
  have h0 : 0 ≤ ⌈2 * b⌉ := Int.ceil_nonneg (by positivity)
  rw [e, Int.ceil_add_int, Int.toNat_of_nonneg (by omega)]
  ring

/-- C10 (counterexample). With a border of half a pixel no blank column is
put to the left of the bounding box (`xOffset = 0`) and one to its right. -/
theorem border_half_pixel_asymmetric :
    borderOffset (1 / 2) = 0 ∧
    ((imageSize 0 10 (1 / 2) : Nat) : Int) - 1 - (10 - 0) - borderOffset (1 / 2) = 1 ∧
    ¬ (borderOffset (1 / 2) =
        ((imageSize 0 10 (1 / 2) : Nat) : Int) - 1 - (10 - 0) - borderOffset (1 / 2)) := by
  have h1 : borderOffset (1 / 2) = 0 := by
    unfold borderOffset
    rw [Int.floor_eq_iff]
    norm_num
  have h2 : ((imageSize 0 10 (1 / 2) : Nat) : Int) - 1 - (10 - 0) = 1 := by
    rw [imageSize_margin 0 10 (1 / 2) (by norm_num) (by norm_num)]
    norm_num
  refine ⟨h1, ?_, ?_⟩
  · rw [h1, h2]; rfl
  · rw [h1, h2]; decide

/-- C10 (amended). For a border of a whole number `b` of pixels, with the size
`(max - min) + 2b + 1` of the axis inside the range of `unsigned`, the
bounding box is drawn `b` pixels from the left (top) edge of the image and `b`
blank pixels remain to its right (below it): the offset `floor b` is `b`, the
size is `(max - min) + 1 + 2b`, a value of the range of `unsigned`, and the
two margins are equal. -/
theorem border_whole_symmetric (lo hi : Int) (b : Nat) (h : lo ≤ hi)
    (hfit : (hi - lo) + 2 * (b : Int) + 1 < 4294967296) :
    borderOffset (b : ℚ) = (b : Int) ∧
    ((imageSize lo hi (b : ℚ) : Nat) : Int) = (hi - lo) + 1 + 2 * (b : Int) ∧
    imageSize lo hi (b : ℚ) < 4294967296 ∧
    ((imageSize lo hi (b : ℚ) : Nat) : Int) - 1 - (hi - lo) - borderOffset (b : ℚ) = (b : Int) ∧
    borderOffset (b : ℚ) =
      ((imageSize lo hi (b : ℚ) : Nat) : Int) - 1 - (hi - lo) - borderOffset (b : ℚ) := by
  have h1 : borderOffset (b : ℚ) = (b : Int) := by
    unfold borderOffset
    exact Int.floor_natCast b
  have h2 := imageSize_whole lo hi b h
  refine ⟨h1, ?_, ?_, ?_, ?_⟩
  · rw [h2]; ring
  · omega
  · rw [h1, h2]; ring
  · rw [h1, h2]; ring

theorem border_whole_symmetric_witness :
    borderOffset ((3 : Nat) : ℚ) = ((3 : Nat) : Int) ∧
    ((imageSize 0 10 ((3 : Nat) : ℚ) : Nat) : Int) - 1 - (10 - 0) -
      borderOffset ((3 : Nat) : ℚ) = ((3 : Nat) : Int) :=
  ⟨(border_whole_symmetric 0 10 3 (by decide) (by decide)).1,
   (border_whole_symmetric 0 10 3 (by decide) (by decide)).2.2.2.1⟩

/-! ### The loops of a row -/

theorem testBit_hi (b i : Nat) (hb : b < 256) (hi : 8 ≤ i) : b.testBit i = false := by
  apply Nat.testBit_lt_two_pow
  calc b < 2 ^ 8 := hb
    _ ≤ 2 ^ i := Nat.pow_le_pow_right (by norm_num) hi

theorem testBit_255_hi (i : Nat) (hi : 8 ≤ i) : (0xFF : Nat).testBit i = false :=
  testBit_hi 255 i (by norm_num) hi

theorem xor_lt_256 (b m : Nat) (hb : b < 256) (hm : m < 256) : b ^^^ m < 256 :=
  Nat.xor_lt_two_pow (n := 8) hb hm

theorem or_lt_256 (b m : Nat) (hb : b < 256) (hm : m < 256) : b ||| m < 256 :=
  Nat.or_lt_two_pow (n := 8) hb hm

theorem clear_compl (b m : Nat) (hb : b < 256) (hm : m < 256) :
    (b ^^^ 0xFF) &&& bnot8 m = (b ||| m) ^^^ 0xFF := by
  apply Nat.eq_of_testBit_eq
  intro i
  simp only [bnot8, Nat.testBit_and, Nat.testBit_xor, Nat.testBit_or]
  by_cases hi : i < 8
  · rw [testBit_255 i hi]
    cases b.testBit i <;> cases m.testBit i <;> rfl
  · rw [testBit_255_hi i (by omega), testBit_hi b i hb (by omega), testBit_hi m i hm (by omega)]
    rfl

theorem xor_compl (b m : Nat) : (b ^^^ 0xFF) ^^^ m = (b ^^^ m) ^^^ 0xFF := by
  rw [Nat.xor_assoc, Nat.xor_comm 0xFF m, ← Nat.xor_assoc]

theorem table_lt_256 (l : List Nat) (h : ∀ x ∈ l, x < 256) (i : Nat) : l.getD i 0 < 256 := by
  rw [List.getD_eq_getElem?_getD]
  cases hg : l[i]? with
  | none => simp
  | some x => exact h x (List.mem_iff_getElem?.mpr ⟨i, hg⟩)

theorem fillSingle_lt (i : Nat) : fillSingle.getD i 0 < 256 :=
  table_lt_256 _ (by decide) i

theorem fillFirst_lt (i : Nat) : fillFirst.getD i 0 < 256 :=
  table_lt_256 _ (by decide) i

theorem fillLast_lt (i : Nat) : fillLast.getD i 0 < 256 :=
  table_lt_256 _ (by decide) i

theorem complement_length (mem : List Nat) : (complement mem).length = mem.length := by
  simp [complement]

theorem poke_rel (f g : Nat → Nat)
    (hfg : ∀ b, b < 256 → g (b ^^^ 0xFF) = f b ^^^ 0xFF ∧ f b < 256)
    (mem : List Nat) (hok : bytesOK mem) (p : Int) :
    poke (complement mem) p g = (poke mem p f).map complement ∧
    ∀ m', poke mem p f = some m' → bytesOK m' := by
  unfold poke
  rw [complement_length]
  by_cases h : 0 ≤ p ∧ p < (mem.length : Int)
  · rw [if_pos h, if_pos h]
    have hlt : p.toNat < mem.length := by omega
    have hb : mem.getD p.toNat 0 < 256 := by
      rw [List.getD_eq_getElem?_getD, List.getElem?_eq_getElem hlt]
      exact hok _ (List.getElem_mem hlt)
    have hget : (complement mem).getD p.toNat 0 = mem.getD p.toNat 0 ^^^ 0xFF := by
      simp only [complement, List.getD_eq_getElem?_getD, List.getElem?_map,
        List.getElem?_eq_getElem hlt, Option.map_some', Option.getD_some]
    refine ⟨?_, ?_⟩
    · rw [Option.map_some', hget, (hfg _ hb).1]
      simp only [complement, List.map_set]
    · intro m' hm'
      rw [← Option.some.inj hm']
      intro x hx
      rcases List.mem_or_eq_of_mem_set hx with hx' | rfl
      · exact hok x hx'
      · exact (hfg _ hb).2
  · rw [if_neg h, if_neg h]
    exact ⟨rfl, fun m' hm' => by simp at hm'⟩

theorem pokeRun_rel (f g : Nat → Nat)
    (hfg : ∀ b, b < 256 → g (b ^^^ 0xFF) = f b ^^^ 0xFF ∧ f b < 256) (n : Nat) :
    ∀ (p : Int) (mem : List Nat), bytesOK mem →
    pokeRun g n p (complement mem) = (pokeRun f n p mem).map complement ∧
    ∀ m', pokeRun f n p mem = some m' → bytesOK m' := by
  induction n with
  | zero =>
    intro p mem hok
    refine ⟨rfl, fun m' hm' => ?_⟩
    simp only [pokeRun, Option.some.injEq] at hm'
    rw [← hm']; exact hok
  | succ n ih =>
    intro p mem hok
    obtain ⟨h1, h2⟩ := poke_rel f g hfg mem hok p
    simp only [pokeRun]
    rw [h1]
    cases hp : poke mem p f with
    | none => exact ⟨rfl, fun m' hm' => by simp at hm'⟩
    | some m1 =>
      obtain ⟨i1, i2⟩ := ih (p + 1) m1 (h2 m1 hp)
      simp only [Option.map_some', Option.some_bind]
      exact ⟨i1, i2⟩

theorem span_rel (fS gS fF gF fL gL fM gM : Nat → Nat)
    (hS : ∀ b, b < 256 → gS (b ^^^ 0xFF) = fS b ^^^ 0xFF ∧ fS b < 256)
    (hF : ∀ b, b < 256 → gF (b ^^^ 0xFF) = fF b ^^^ 0xFF ∧ fF b < 256)
    (hL : ∀ b, b < 256 → gL (b ^^^ 0xFF) = fL b ^^^ 0xFF ∧ fL b < 256)
    (hM : ∀ b, b < 256 → gM (b ^^^ 0xFF) = fM b ^^^ 0xFF ∧ fM b < 256)
    (mem : List Nat) (hok : bytesOK mem) (px1 px2 q : Int) (n : Nat) :
    (if px1 = px2 then poke (complement mem) px1 gS else
        (poke (complement mem) px1 gF).bind fun m1 => (poke m1 px2 gL).bind fun m2 =>
          pokeRun gM n q m2) =
      (if px1 = px2 then poke mem px1 fS else
        (poke mem px1 fF).bind fun m1 => (poke m1 px2 fL).bind fun m2 =>
          pokeRun fM n q m2).map complement ∧
    ∀ m', (if px1 = px2 then poke mem px1 fS else
        (poke mem px1 fF).bind fun m1 => (poke m1 px2 fL).bind fun m2 =>
          pokeRun fM n q m2) = some m' → bytesOK m' := by
  by_cases h : px1 = px2
  · rw [if_pos h, if_pos h]
    exact poke_rel fS gS hS mem hok px1
  · rw [if_neg h, if_neg h]
    obtain ⟨a1, a2⟩ := poke_rel fF gF hF mem hok px1
    rw [a1]
    cases hp1 : poke mem px1 fF with
    | none => exact ⟨rfl, fun m' hm' => by simp at hm'⟩
    | some m1 =>
      obtain ⟨b1, b2⟩ := poke_rel fL gL hL m1 (a2 m1 hp1) px2
      simp only [Option.map_some', Option.some_bind]
      rw [b1]
      cases hp2 : poke m1 px2 fL with
      | none => exact ⟨rfl, fun m' hm' => by simp at hm'⟩
      | some m2 =>
        simp only [Option.map_some', Option.some_bind]
        exact pokeRun_rel fM gM hM n q m2 (b2 m2 hp2)

theorem horizontalLine_rel (x1 x2 buffer : Int) (mem : List Nat) (hok : bytesOK mem)
    (polarity : Polarity_t) :
    horizontalLine x1 x2 buffer (complement mem) (effectivePolarity polarity false) =
      (horizontalLine x1 x2 buffer mem (effectivePolarity polarity true)).map complement ∧
    ∀ m', horizontalLine x1 x2 buffer mem (effectivePolarity polarity true) = some m' →
      bytesOK m' := by
  have dark : ∀ m, m < 256 →
      ∀ b, b < 256 → (b ^^^ 0xFF) &&& bnot8 m = (b ||| m) ^^^ 0xFF ∧ b ||| m < 256 :=
    fun m hm b hb => ⟨clear_compl b m hb hm, or_lt_256 b m hb hm⟩
  have inv : ∀ m, m < 256 →
      ∀ b, b < 256 → (b ^^^ 0xFF) ^^^ m = (b ^^^ m) ^^^ 0xFF ∧ b ^^^ m < 256 :=
    fun m hm b hb => ⟨xor_compl b m, xor_lt_256 b m hb hm⟩
  have fill : ∀ b, b < 256 → (0x0 : Nat) = 0xFF ^^^ 0xFF ∧ (0xFF : Nat) < 256 :=
    fun _ _ => ⟨by decide, by decide⟩
  have hD : effectivePolarity polarity true = Polarity_t.DARK ∧
      effectivePolarity polarity false = Polarity_t.CLEAR ∨
      effectivePolarity polarity true = Polarity_t.XOR ∧
      effectivePolarity polarity false = Polarity_t.XOR := by
    cases polarity
    · exact Or.inl ⟨rfl, rfl⟩
    · exact Or.inl ⟨rfl, rfl⟩
    · exact Or.inr ⟨rfl, rfl⟩
  rcases hD with ⟨e1, e2⟩ | ⟨e1, e2⟩
  · rw [e1, e2]
    simp only [horizontalLine, memset]
    exact span_rel _ _ _ _ _ _ _ _ (dark _ (fillSingle_lt _)) (dark _ (fillFirst_lt _))
      (dark _ (fillLast_lt _)) fill mem hok _ _ _ _
  · rw [e1, e2]
    simp only [horizontalLine]
    exact span_rel _ _ _ _ _ _ _ _ (inv _ (fillSingle_lt _)) (inv _ (fillFirst_lt _))
      (inv _ (fillLast_lt _)) (inv 0xFF (by decide)) mem hok _ _ _ _

theorem BitmapRel_bind (dark light : Option (List Nat)) (h : BitmapRel dark light)
    (x1 x2 buffer : Int) (polarity : Polarity_t) :
    BitmapRel
      (dark.bind fun mem =>
        horizontalLine x1 x2 buffer mem (effectivePolarity polarity true))
      (light.bind fun mem =>
        horizontalLine x1 x2 buffer mem (effectivePolarity polarity false)) := by
  obtain ⟨h1, h2⟩ := h
  cases dark with
  | none =>
    rw [h1]
    exact ⟨rfl, fun m hm => by simp at hm⟩
  | some mem =>
    rw [h1]
    obtain ⟨r1, r2⟩ := horizontalLine_rel x1 x2 buffer mem (h2 mem rfl) polarity
    simp only [Option.map_some', Option.some_bind]
    exact ⟨r1, r2⟩

theorem drawSpans_rel (xOffset : Int) (r : PolygonReference) (y bufferLine : Int)
    (polarity : Polarity_t) (spans : List (Int × Int)) :
    ∀ (dark light : Option (List Nat)) (tr tr' : List Event), BitmapRel dark light →
    BitmapRel
      (drawSpans xOffset r y bufferLine (effectivePolarity polarity true) spans dark tr).1
      (drawSpans xOffset r y bufferLine (effectivePolarity polarity false) spans light tr').1 := by
  induction spans with
  | nil => intro dark light tr tr' h; exact h
  | cons ab rest ih =>
    intro dark light tr tr' h
    obtain ⟨a, b⟩ := ab
    simp only [drawSpans]
    exact ih _ _ _ _ (BitmapRel_bind dark light h _ _ _ polarity)

theorem activeLoop_rel (xOffset : Int) (y bufferLine : Int) (l : List PolygonReference) :
    ∀ (dark light : Option (List Nat)) (tr tr' : List Event), BitmapRel dark light →
    (activeLoop xOffset false y bufferLine l light tr').1 =
      (activeLoop xOffset true y bufferLine l dark tr).1 ∧
    BitmapRel (activeLoop xOffset true y bufferLine l dark tr).2.1
      (activeLoop xOffset false y bufferLine l light tr').2.1 := by
  induction l with
  | nil => intro dark light tr tr' h; exact ⟨rfl, h⟩
  | cons r rest ih =>
    intro dark light tr tr' h
    by_cases c : y > r.polygon.pixelMaxY
    · simp only [activeLoop, if_pos c]
      exact ih _ _ _ _ h
    · simp only [activeLoop, if_neg c]
      obtain ⟨i1, i2⟩ := ih _ _
        (drawSpans xOffset r y bufferLine (effectivePolarity r.polygon.polarity true)
          (r.polygon.sli r.calls) dark (tr ++ [Event.cursor r.index y])).2
        (drawSpans xOffset r y bufferLine (effectivePolarity r.polygon.polarity false)
          (r.polygon.sli r.calls) light (tr' ++ [Event.cursor r.index y])).2
        (drawSpans_rel xOffset r y bufferLine r.polygon.polarity (r.polygon.sli r.calls)
          dark light (tr ++ [Event.cursor r.index y]) (tr' ++ [Event.cursor r.index y]) h)
      exact ⟨by rw [i1], i2⟩

theorem admitLoop_indep (y : Int) (pend : List Polygon) :
    ∀ (i : Nat) (act : List PolygonReference) (tr tr' : List Event),
    (admitLoop y pend i act tr').1 = (admitLoop y pend i act tr).1 ∧
    (admitLoop y pend i act tr').2.1 = (admitLoop y pend i act tr).2.1 ∧
    (admitLoop y pend i act tr').2.2.1 = (admitLoop y pend i act tr).2.2.1 := by
  induction pend with
  | nil => intro i act tr tr'; exact ⟨rfl, rfl, rfl⟩
  | cons p rest ih =>
    intro i act tr tr'
    by_cases h : y = p.pixelMinY
    · simp only [admitLoop, if_pos h]
      exact ih _ _ _ _
    · have e : ∀ t, admitLoop y (p :: rest) i act t = (p :: rest, i, act, t) := by
        intro t; simp only [admitLoop, if_neg h]
      rw [e tr, e tr']
      exact ⟨rfl, rfl, rfl⟩

theorem rowBody_rel (im : Image) (y bufferLine : Int) (s s' : Sweep)
    (hD : im.isPolarityDark = true) (h : RowRel s s') :
    RowRel (rowBody im y bufferLine s)
      (rowBody { im with isPolarityDark := false } y bufferLine s') := by
  obtain ⟨h1, h2, h3, h4, h5, h6, h7⟩ := h
  obtain ⟨a1, a2, a3⟩ := admitLoop_indep y s.pending s.nextIndex s.activePolys s.trace s'.trace
  obtain ⟨b1, b2⟩ := activeLoop_rel (im.xOffset - im.minx) y bufferLine
    (admitLoop y s.pending s.nextIndex s.activePolys s.trace).2.2.1 s.bitmap s'.bitmap
    (admitLoop y s.pending s.nextIndex s.activePolys s.trace).2.2.2
    (admitLoop y s.pending s.nextIndex s.activePolys s'.trace).2.2.2 h7
  simp only [RowRel, rowBody, h1, h2, h3, a1, a2, a3, hD]
  exact ⟨trivial, trivial, b1, h4, h5, h6, b2⟩

theorem rowLoop_rel (im : Image) (hD : im.isPolarityDark = true) (n : Nat) :
    ∀ (y bufferLine : Int) (s s' : Sweep), RowRel s s' →
      RowRel (rowLoop im n y bufferLine s)
        (rowLoop { im with isPolarityDark := false } n y bufferLine s') := by
  induction n with
  | zero => intro y bl s s' h; exact h
  | succ n ih =>
    intro y bl s s' h
    by_cases c : y ≤ im.maxy
    · have e1 : rowLoop im (n + 1) y bl s =
          rowLoop im n (y + 1) (bl + im.bytesPerScanline) (rowBody im y bl s) := by
        simp only [rowLoop, if_pos c]
      have e2 : rowLoop { im with isPolarityDark := false } (n + 1) y bl s' =
          rowLoop { im with isPolarityDark := false } n (y + 1) (bl + im.bytesPerScanline)
            (rowBody { im with isPolarityDark := false } y bl s') := by
        simp only [rowLoop, if_pos c]
        rfl
      rw [e1, e2]
      exact ih _ _ _ _ (rowBody_rel im y bl s s' hD h)
    · have e1 : rowLoop im (n + 1) y bl s = s := by simp only [rowLoop, if_neg c]
      have e2 : rowLoop { im with isPolarityDark := false } (n + 1) y bl s' = s' := by
        simp only [rowLoop, if_neg c]
      rw [e1, e2]
      exact h

theorem complement_replicate (n : Nat) :
    complement (List.replicate n 0x00) = List.replicate n 0xff := by
  simp [complement]

theorem bytesOK_take (m : List Nat) (k : Nat) (h : bytesOK m) : bytesOK (m.take k) :=
  fun b hb => h b (List.mem_of_mem_take hb)

theorem stripWrite_rel (t t' : Sweep) (h : RowRel t t') (cc lines : Nat → Nat)
    (ystart : Int) (d d' : Nat) :
    StripRel
      { t with
        stripCounter := t.stripCounter + 1
        written := t.written ++ [{ strip := t.stripCounter, cc := cc t.stripCounter,
                                   data := t.bitmap.map (List.take (cc t.stripCounter)) }]
        trace := t.trace ++ [Event.strip t.stripCounter ystart (lines t.stripCounter)]
        darkPixelsCount := d }
      { t' with
        stripCounter := t'.stripCounter + 1
        written := t'.written ++ [{ strip := t'.stripCounter, cc := cc t'.stripCounter,
                                    data := t'.bitmap.map (List.take (cc t'.stripCounter)) }]
        trace := t'.trace ++ [Event.strip t'.stripCounter ystart (lines t'.stripCounter)]
        darkPixelsCount := d' } := by
  obtain ⟨r1, r2, r3, r4, r5, r6, r7, r8⟩ := h
  refine ⟨r1, r2, r3, ?_, ?_, ?_, ?_⟩
  · show t'.stripCounter + 1 = t.stripCounter + 1
    rw [r4]
  · show t'.written ++ _ = List.map StripWrite.complement (t.written ++ _)
    rw [r5, List.map_append, r4, r7]
    congr 1
    have e : (List.take (cc t.stripCounter) ∘ complement) =
        (complement ∘ List.take (cc t.stripCounter)) := by
      funext m; simp [complement, List.map_take]
    simp only [List.map_cons, List.map_nil, StripWrite.complement, Option.map_map, e]
  · intro w hw m hm
    rcases List.mem_append.mp hw with hw1 | hw2
    · exact r6 w hw1 m hm
    · rw [List.mem_singleton] at hw2
      rw [hw2] at hm
      simp only [Option.map_eq_some'] at hm
      obtain ⟨m0, hm0, rfl⟩ := hm
      exact bytesOK_take m0 _ (r8 m0 hm0)
  · show (t'.bitmap).isSome = (t.bitmap).isSome
    rw [r7]
    simp

theorem blank_rel (s s' : Sweep) (h : StripRel s s') (n : Nat) :
    RowRel
      { s with bitmap := s.bitmap.map fun _ => List.replicate n (0x00 : Nat) }
      { s' with bitmap := s'.bitmap.map fun _ => List.replicate n (0xff : Nat) } := by
  obtain ⟨h1, h2, h3, h4, h5, h6, h7⟩ := h
  refine ⟨h1, h2, h3, h4, h5, h6, ?_⟩
  show BitmapRel (s.bitmap.map fun _ => List.replicate n (0x00 : Nat))
    (s'.bitmap.map fun _ => List.replicate n (0xff : Nat))
  cases hs : s.bitmap with
  | none =>
    rw [hs] at h7
    cases hs' : s'.bitmap with
    | none => exact ⟨rfl, fun m hm => by simp at hm⟩
    | some m' => rw [hs'] at h7; simp at h7
  | some m =>
    rw [hs] at h7
    cases hs' : s'.bitmap with
    | none => rw [hs'] at h7; simp at h7
    | some m' =>
      refine ⟨?_, ?_⟩
      · simp only [Option.map_some', complement_replicate]
      · intro m0 hm0
        simp only [Option.map_some', Option.some.injEq] at hm0
        rw [← hm0]
        intro b hb
        rw [List.eq_of_mem_replicate hb]
        decide

theorem stripBody_rel (im : Image) (hD : im.isPolarityDark = true) (ystart : Int)
    (s s' : Sweep) (h : StripRel s s') :
    StripRel (stripBody im ystart s)
      (stripBody { im with isPolarityDark := false } ystart s') := by
  have hrow := rowLoop_rel im hD im.rowsPerStrip ystart 0 _ _ (blank_rel s s' h im.bitmapBytes)
  cases im with
  | mk minx miny maxx maxy imageWidth imageHeight xOffset yOffset rowsPerStrip
      isPolarityDark optShowArea =>
    simp only at hD
    subst hD
    exact stripWrite_rel _ _ hrow
      (fun k => ((imageWidth + 7) % 4294967296) / 8 *
        min rowsPerStrip (imageHeight - rowsPerStrip * k) % 4294967296)
      (fun k => min rowsPerStrip (imageHeight - rowsPerStrip * k)) ystart _ _

theorem stripLoop_rel (im : Image) (hD : im.isPolarityDark = true) (fuel : Nat) :
    ∀ (ystart : Int) (s s' : Sweep), StripRel s s' →
      (stripLoop im fuel ystart s = none ∧
        stripLoop { im with isPolarityDark := false } fuel ystart s' = none) ∨
      ∃ t t', stripLoop im fuel ystart s = some t ∧
        stripLoop { im with isPolarityDark := false } fuel ystart s' = some t' ∧
        StripRel t t' := by
  induction fuel with
  | zero =>
    intro ystart s s' h
    by_cases c : ystart < (im.imageHeight : Int) + im.miny - im.yOffset
    · left
      constructor <;> simp only [stripLoop, if_pos c]
    · right
      refine ⟨s, s', ?_, ?_, h⟩ <;> simp only [stripLoop, if_neg c]
  | succ fuel ih =>
    intro ystart s s' h
    by_cases c : ystart < (im.imageHeight : Int) + im.miny - im.yOffset
    · have e1 : stripLoop im (fuel + 1) ystart s =
          stripLoop im fuel (ystart + im.rowsPerStrip) (stripBody im ystart s) := by
        simp only [stripLoop, if_pos c]
      have e2 : stripLoop { im with isPolarityDark := false } (fuel + 1) ystart s' =
          stripLoop { im with isPolarityDark := false } fuel (ystart + im.rowsPerStrip)
            (stripBody { im with isPolarityDark := false } ystart s') := by
        simp only [stripLoop, if_pos c]
      rw [e1, e2]
      exact ih _ _ _ (stripBody_rel im hD ystart s s' h)
    · right
      refine ⟨s, s', ?_, ?_, h⟩ <;> simp only [stripLoop, if_neg c]

/-- C5. For every global polygon sequence with its per-row span tables, every
border, every rows-per-strip value and either setting of the area option, the
strips written with `isPolarityDark = false` are, strip for strip (same
number, same byte count), the byte-for-byte bitwise complement of the strips
written with `isPolarityDark = true`, whose bytes are all below 256; the two
runs end or fail together. -/
theorem polarity_round_trip (gp : List Polygon) (optBoarder : ℚ) (N : Nat) (a : Bool) :
    (render gp optBoarder N false a).map (fun s => s.written) =
      (render gp optBoarder N true a).map
        (fun s => s.written.map StripWrite.complement) ∧
    ∀ s, render gp optBoarder N true a = some s →
      ∀ w ∈ s.written, ∀ m, w.data = some m → bytesOK m := by
  have hinit : StripRel (initSweep (mkImage gp optBoarder N true a) gp)
      (initSweep { mkImage gp optBoarder N true a with isPolarityDark := false } gp) :=
    ⟨rfl, rfl, rfl, rfl, rfl, fun w hw => absurd hw (List.not_mem_nil w), rfl⟩
  have hrel := stripLoop_rel (mkImage gp optBoarder N true a) rfl
    (mkImage gp optBoarder N true a).imageHeight
    ((mkImage gp optBoarder N true a).miny - (mkImage gp optBoarder N true a).yOffset)
    _ _ hinit
  have eD : render gp optBoarder N true a =
      stripLoop (mkImage gp optBoarder N true a)
        (mkImage gp optBoarder N true a).imageHeight
        ((mkImage gp optBoarder N true a).miny - (mkImage gp optBoarder N true a).yOffset)
        (initSweep (mkImage gp optBoarder N true a) gp) := rfl
  have eL : render gp optBoarder N false a =
      stripLoop { mkImage gp optBoarder N true a with isPolarityDark := false }
        (mkImage gp optBoarder N true a).imageHeight
        ((mkImage gp optBoarder N true a).miny - (mkImage gp optBoarder N true a).yOffset)
        (initSweep { mkImage gp optBoarder N true a with isPolarityDark := false } gp) := rfl
  rw [eD, eL]
  rcases hrel with ⟨n1, n2⟩ | ⟨t, t', r1, r2, r3⟩
  · rw [n1, n2]
    exact ⟨rfl, fun s hs => by simp at hs⟩
  · rw [r1, r2]
    refine ⟨?_, ?_⟩
    · simp only [Option.map_some', r3.2.2.2.2.1]
    · intro s hs
      rw [← Option.some.inj hs]
      exact r3.2.2.2.2.2.1

theorem polarity_round_trip_witness :
    (render [rectangle 0 Polarity_t.DARK 2 12 0 1] (1 / 2) 512 false true).map
        (fun s => s.written) =
      (render [rectangle 0 Polarity_t.DARK 2 12 0 1] (1 / 2) 512 true true).map
        (fun s => s.written.map StripWrite.complement) :=
  (polarity_round_trip [rectangle 0 Polarity_t.DARK 2 12 0 1] (1 / 2) 512 true).1

/-! ### A CLEAR rectangle inside a DARK one -/

theorem imageSize_zero (lo hi : Int) : imageSize lo hi 0 = (hi - lo + 1).toNat := by
  unfold imageSize
  have e : (((hi - lo : Int) : ℚ) + 2 * 0 + 1) = ((hi - lo + 1 : Int) : ℚ) := by
    push_cast; ring
  rw [e, Int.ceil_intCast]

theorem borderOffset_zero : borderOffset 0 = 0 := by
  simp [borderOffset]

/-- C3 (the code at the failing input). DARK rectangle 0..99 x 0..99 followed
by CLEAR rectangle 25..74 x 25..74, each row of each polygon being the single
span of its x-range, non-inverted image, border 0, area reporting on, one row
per strip: the run ends with `darkPixelsCount = 10400`, and the 100 strips
written hold 10000 one-bits, where the claim has 7500. -/
theorem clear_inside_dark_count :
    (render [rectangle 0 Polarity_t.DARK 0 99 0 99, rectangle 1 Polarity_t.CLEAR 25 74 25 74]
        0 1 true true).map
        (fun s => (s.darkPixelsCount,
          (s.written.map fun w => (w.data.map popcountBytes).getD 0).sum,
          s.written.length)) =
      some (10400, 10000, 100) := by
  have e : mkImage
      [rectangle 0 Polarity_t.DARK 0 99 0 99, rectangle 1 Polarity_t.CLEAR 25 74 25 74]
      0 1 true true =
      { minx := 0, miny := 0, maxx := 99, maxy := 99, imageWidth := 100, imageHeight := 100
        xOffset := 0, yOffset := 0, rowsPerStrip := 1, isPolarityDark := true
        optShowArea := true } := by
    simp only [mkImage, imageSize_zero, borderOffset_zero]
    rfl
  rw [render, e]
  decide!

/-! ### The area report -/

/-- The dark area that is reported is `darkPixelsCount * (2.54/DPI)^2`. -/
theorem darkAreaReport_eq (darkPixelsCount : Nat) (imageDPI : ℚ) :
    darkAreaReport darkPixelsCount imageDPI =
      (darkPixelsCount : ℚ) * ((254 / 100) / imageDPI) ^ 2 := by
  unfold darkAreaReport
  by_cases h : imageDPI = 0
  · simp [h]
  · field_simp
    ring

/-- The clear area that is reported is the pixel count of the image divided by
`DPI^2`, which is its area in square inches, minus the dark area in square
centimetres. -/
theorem clearAreaReport_eq (imageHeight imageWidth darkPixelsCount : Nat) (imageDPI : ℚ) :
    clearAreaReport imageHeight imageWidth darkPixelsCount imageDPI =
      ((imageWidth : ℚ) * imageHeight) / imageDPI ^ 2 -
        darkAreaReport darkPixelsCount imageDPI := by
  unfold clearAreaReport darkAreaReport
  push_cast
  ring

/-- C12 (the code at the failing input). For an image of 2400 x 2400 pixels
at 2400 DPI with no dark pixel the reported dark area is 0 and the reported
clear area is 1, where the claim has (2400 * 2400 - 0) * (2.54/2400)^2 =
6.4516; the two reported areas add up to 1, not to the image area 6.4516. -/
theorem area_report_one_inch :
    darkAreaReport 0 2400 = 0 ∧
    clearAreaReport 2400 2400 0 2400 = 1 ∧
    (((2400 * 2400 - 0 : Nat) : ℚ)) * ((254 / 100) / 2400) ^ 2 = 64516 / 10000 ∧
    darkAreaReport 0 2400 + clearAreaReport 2400 2400 0 2400 ≠
      ((2400 : ℚ) * 2400) * ((254 / 100) / 2400) ^ 2 := by
  refine ⟨?_, ?_, ?_, ?_⟩
  · norm_num [darkAreaReport]
  · norm_num [clearAreaReport]
  · norm_num
  · norm_num [darkAreaReport, clearAreaReport]

/-! ### The empty image -/

/-- C11. After the documents have parsed without error, the run ends with the
`no image` error if and only if the merged `globalPolygons` is empty; in that
case `TIFFOpen` has not been called and no strip has been written; when
`globalPolygons` is not empty no run ends with this error. -/
theorem no_image_error (optBoarder : ℚ) (rowsPerStrip : Nat)
    (optInvertPolarity optTestOnly optShowArea tiffOpenOk mallocOk : Bool)
    (first : Gerber) (rest : List Gerber) :
    ((∃ r, mainAfterParse optBoarder rowsPerStrip optInvertPolarity optTestOnly optShowArea
          tiffOpenOk mallocOk first rest = some r ∧ r.exit = Exit.error "no image") ↔
      mergeGerbers (first :: rest) = []) ∧
    (mergeGerbers (first :: rest) = [] →
      mainAfterParse optBoarder rowsPerStrip optInvertPolarity optTestOnly optShowArea
          tiffOpenOk mallocOk first rest =
        some { exit := Exit.error "no image", tiffOpenCalled := false, written := [] }) ∧
    (mergeGerbers (first :: rest) ≠ [] →
      ∀ r, mainAfterParse optBoarder rowsPerStrip optInvertPolarity optTestOnly optShowArea
          tiffOpenOk mallocOk first rest = some r → r.exit ≠ Exit.error "no image") := by
  have hempty : mergeGerbers (first :: rest) = [] →
      mainAfterParse optBoarder rowsPerStrip optInvertPolarity optTestOnly optShowArea
          tiffOpenOk mallocOk first rest =
        some { exit := Exit.error "no image", tiffOpenCalled := false, written := [] } := by
    intro h
    simp only [mainAfterParse, h, List.length_nil, if_true]
  have hfull : mergeGerbers (first :: rest) ≠ [] →
      ∀ r, mainAfterParse optBoarder rowsPerStrip optInvertPolarity optTestOnly optShowArea
          tiffOpenOk mallocOk first rest = some r → r.exit ≠ Exit.error "no image" := by
    intro h r hr
    have hlen : ¬ (mergeGerbers (first :: rest)).length = 0 := by
      intro e; exact h (List.length_eq_zero.mp e)
    simp only [mainAfterParse, if_neg hlen] at hr
    split_ifs at hr
    · rw [← Option.some.inj hr]; simp
    · rw [← Option.some.inj hr]; simp
    · rw [← Option.some.inj hr]; simp
    · obtain ⟨s, _, hs⟩ := Option.map_eq_some'.mp hr
      rw [← hs]; simp
  refine ⟨⟨?_, ?_⟩, hempty, hfull⟩
  · rintro ⟨r, hr, he⟩
    by_contra hne
    exact hfull hne r hr he
  · intro h
    exact ⟨_, hempty h, rfl⟩

theorem no_image_error_witness :
    mainAfterParse 0 512 false false true true true
        { polygons := [], imagePolarityDark := true }
        [{ polygons := [], imagePolarityDark := false }] =
      some { exit := Exit.error "no image", tiffOpenCalled := false, written := [] } :=
  (no_image_error 0 512 false false true true true
    { polygons := [], imagePolarityDark := true }
    [{ polygons := [], imagePolarityDark := false }]).2.1
    (by simp [mergeGerbers, listMerge])

/-! ### Writes stay inside the row -/

end Gerb2Tiff
